import Mathlib

/-!
# EasyPRT - verification of the record-reconciliation pipeline

Shallow embedding of the two Python sources of the EasyPRT repository:

* `history-parsing/parser.py` - scheduled-time conversion, the
  deduplication pass and the schedule-matching pass over `history.txt`;
* `schedule-parsing/parser.py` - the timetable builder that joins the raw
  GTFS tables into `schedule.txt`.

Python strings are modelled as `List Char` (in Lean 4.14 a `String` is a
structure wrapping exactly such a list, and `String.data` converts).
Python `str.split`, `str.strip`, `str.startswith`, `int(...)`, `str(...)`
and `datetime.strptime`-with-`"%H:%M:%S"` are modelled by the executable
helpers below.  Fallible code returns `Option`/`Except`; an `Except.error`
value carries the name of the Python exception that would propagate
uncaught at that point.
-/

set_option maxHeartbeats 1000000

namespace EasyPRT

/-- Python strings, modelled as their list of characters. -/
abbrev Str := List Char

/-- Turn a Lean string literal into its character list. -/
def lit (s : String) : Str := s.data

/-- The whitespace characters stripped by Python `str.strip()`:
space, tab, newline, carriage return, vertical tab, form feed. -/
def pySpace (c : Char) : Bool :=
  c == ' ' || c == '\t' || c == '\n' || c == '\r' || c == '\x0b' || c == '\x0c'

/-- Python `s.strip()`: drop whitespace from both ends. -/
def pyStrip (s : Str) : Str :=
  ((s.dropWhile pySpace).reverse.dropWhile pySpace).reverse

/-- Python `s.split(sep)` for a one-character separator: split at every
occurrence of `sep`, keeping empty fields; the result is never empty. -/
def pySplit (sep : Char) : Str → List Str
  | [] => [[]]
  | c :: cs =>
    if c = sep then [] :: pySplit sep cs
    else
      match pySplit sep cs with
      | [] => [[c]]
      | f :: fs => (c :: f) :: fs

/-- Python `s.startswith(p)` is `pyStartsWith p s`. -/
def pyStartsWith : Str → Str → Bool
  | [], _ => true
  | _ :: _, [] => false
  | p :: ps, c :: cs => p == c && pyStartsWith ps cs

theorem pySplit_ne_nil (sep : Char) (s : Str) : pySplit sep s ≠ [] := by
  cases s with
  | nil => simp [pySplit]
  | cons c cs =>
    simp only [pySplit]
    split
    · simp
    · split <;> simp

theorem pySplit_of_not_mem {sep : Char} {s : Str} (h : sep ∉ s) :
    pySplit sep s = [s] := by
  induction s with
  | nil => rfl
  | cons c cs ih =>
    simp only [List.mem_cons, not_or] at h
    simp only [pySplit, if_neg (Ne.symm h.1), ih h.2]

theorem pySplit_append {sep : Char} {s : Str} (t : Str) (h : sep ∉ s) :
    pySplit sep (s ++ sep :: t) = s :: pySplit sep t := by
  induction s with
  | nil => simp [pySplit]
  | cons c cs ih =>
    simp only [List.mem_cons, not_or] at h
    have h2 := ih h.2
    simp only [List.cons_append, pySplit, if_neg (Ne.symm h.1), List.append_eq, h2]

/-! ## Decimal digits: the model of Python `str(n)` for a natural number

Lean core's `Nat.toDigits 10` is fuel-based structural recursion producing
the decimal digit characters most significant first with no leading zeros,
exactly the text Python `str` produces for a non-negative `int`. -/

/-- Decimal digit characters of `n`, most significant first. -/
def natStr (n : Nat) : Str := Nat.toDigits 10 n

theorem digitChar_isDigit : ∀ k, k < 10 → (Nat.digitChar k).isDigit = true := by decide

theorem mem_toDigitsCore_isDigit :
    ∀ (f n : Nat) (ds : Str), (∀ c ∈ ds, c.isDigit = true) →
      ∀ c ∈ Nat.toDigitsCore 10 f n ds, c.isDigit = true := by
  intro f
  induction f with
  | zero => intro n ds hds; simpa [Nat.toDigitsCore] using hds
  | succ f ih =>
    intro n ds hds c hc
    simp only [Nat.toDigitsCore] at hc
    by_cases h0 : n / 10 = 0
    · rw [if_pos h0] at hc
      rcases List.mem_cons.mp hc with hc | hc
      · subst hc; exact digitChar_isDigit _ (Nat.mod_lt _ (by omega))
      · exact hds _ hc
    · rw [if_neg h0] at hc
      refine ih (n / 10) _ ?_ c hc
      intro x hx
      rcases List.mem_cons.mp hx with hx | hx
      · subst hx; exact digitChar_isDigit _ (Nat.mod_lt _ (by omega))
      · exact hds _ hx

theorem mem_natStr_isDigit {n : Nat} {c : Char} (h : c ∈ natStr n) :
    c.isDigit = true :=
  mem_toDigitsCore_isDigit (n + 1) n [] (by simp) c h

theorem toDigitsCore_acc :
    ∀ (f n : Nat) (ds : Str), n < f →
      Nat.toDigitsCore 10 f n ds = Nat.toDigitsCore 10 f n [] ++ ds := by
  intro f
  induction f with
  | zero => intro n ds h; omega
  | succ f ih =>
    intro n ds h
    simp only [Nat.toDigitsCore]
    by_cases h0 : n / 10 = 0
    · simp [h0]
    · have hn : n / 10 < f := by
        have h1 : n / 10 < n := Nat.div_lt_self (by omega) (by omega)
        omega
      rw [if_neg h0, if_neg h0, ih (n / 10) _ hn,
          ih (n / 10) [Nat.digitChar (n % 10)] hn, List.append_assoc]
      rfl

theorem toDigitsCore_fuel :
    ∀ (n f g : Nat), n < f → n < g →
      Nat.toDigitsCore 10 f n [] = Nat.toDigitsCore 10 g n [] := by
  intro n
  induction n using Nat.strong_induction_on with
  | _ n ih =>
    intro f g hf hg
    cases f with
    | zero => omega
    | succ f =>
      cases g with
      | zero => omega
      | succ g =>
        simp only [Nat.toDigitsCore]
        by_cases h0 : n / 10 = 0
        · simp [h0]
        · have hlt : n / 10 < n := Nat.div_lt_self (by omega) (by omega)
          rw [if_neg h0, if_neg h0,
              toDigitsCore_acc f (n / 10) _ (by omega),
              toDigitsCore_acc g (n / 10) _ (by omega),
              ih (n / 10) hlt f g (by omega) (by omega)]

/-- Unfolding rule for `natStr`: digits of `n / 10` followed by the last
digit, with no leading digits when `n < 10`. -/
theorem natStr_eq (n : Nat) :
    natStr n = (if 10 ≤ n then natStr (n / 10) else []) ++ [Nat.digitChar (n % 10)] := by
  show Nat.toDigitsCore 10 (n + 1) n [] = _
  simp only [Nat.toDigitsCore]
  by_cases h0 : n / 10 = 0
  · have : ¬ 10 ≤ n := by omega
    simp [h0, this]
  · have h10 : 10 ≤ n := by
      by_contra hc
      exact h0 (Nat.div_eq_of_lt (by omega))
    have hlt : n / 10 < n := Nat.div_lt_self (by omega) (by omega)
    rw [if_neg h0, if_pos h10,
        toDigitsCore_acc n (n / 10) _ (by omega)]
    show _ ++ _ = natStr (n / 10) ++ _
    rw [show natStr (n / 10) = Nat.toDigitsCore 10 (n / 10 + 1) (n / 10) [] from rfl,
        toDigitsCore_fuel (n / 10) n (n / 10 + 1) (by omega) (by omega)]

theorem natStr_lt_10 {n : Nat} (h : n < 10) : natStr n = [Nat.digitChar n] := by
  rw [natStr_eq, if_neg (by omega), Nat.mod_eq_of_lt h, List.nil_append]

theorem natStr_lt_100 {n : Nat} (h10 : 10 ≤ n) (h : n < 100) :
    natStr n = [Nat.digitChar (n / 10), Nat.digitChar (n % 10)] := by
  rw [natStr_eq, if_pos h10, natStr_lt_10 (by omega), List.singleton_append]

theorem natStr_ne_nil (n : Nat) : natStr n ≠ [] := by
  rw [natStr_eq]; simp

theorem natStr_length_le_two {n : Nat} (h : n < 100) : (natStr n).length ≤ 2 := by
  by_cases h10 : 10 ≤ n
  · rw [natStr_lt_100 h10 h]; rfl
  · rw [natStr_lt_10 (by omega)]; simp

/-! ## Zero padding and numeric parsing -/

/-- C-style zero padding to width `w` (`%02d`, as produced by
`strftime("%H")` etc.); for `n` with at least `w` digits this is just the
digits of `n`. -/
def padNum (w n : Nat) : Str :=
  List.replicate (w - (natStr n).length) '0' ++ natStr n

/-- Two-digit zero padding, the shape of every `%H`/`%M`/`%S`/`%m`/`%d`
field that `strftime` emits. -/
def pad2 (n : Nat) : Str := padNum 2 n

theorem mem_padNum_isDigit {w n : Nat} {c : Char} (h : c ∈ padNum w n) :
    c.isDigit = true := by
  rcases List.mem_append.mp h with h | h
  · rw [List.eq_of_mem_replicate h]; decide
  · exact mem_natStr_isDigit h

theorem padNum_two_length {n : Nat} (h : n < 100) : (pad2 n).length = 2 := by
  have h1 : 1 ≤ (natStr n).length := by
    cases hh : natStr n with
    | nil => exact absurd hh (natStr_ne_nil n)
    | cons a l => simp
  have h2 := natStr_length_le_two h
  simp only [pad2, padNum, List.length_append, List.length_replicate]
  omega

/-- Numeric value of a digit character (`'0'` has code 48). -/
def digitVal (c : Char) : Nat := c.toNat - 48

/-- Parse a non-empty all-digit string to its value; `none` otherwise.
This is the digit-consuming core shared by the strptime field model and
the `int(...)` model. -/
def charsToNat (s : Str) : Option Nat :=
  if s ≠ [] ∧ ∀ c ∈ s, c.isDigit = true then
    some (s.foldl (fun a c => 10 * a + digitVal c) 0)
  else none

theorem digitVal_digitChar : ∀ k, k < 10 → digitVal (Nat.digitChar k) = k := by decide

theorem foldl_natStr (n : Nat) :
    ∀ a : Nat, (natStr n).foldl (fun a c => 10 * a + digitVal c) a = a * 10 ^ (natStr n).length + n := by
  induction n using Nat.strong_induction_on with
  | _ n ih =>
    intro a
    by_cases h10 : 10 ≤ n
    · have hlt : n / 10 < n := Nat.div_lt_self (by omega) (by omega)
      rw [natStr_eq, if_pos h10, List.foldl_append, ih (n / 10) hlt a]
      simp only [List.foldl_cons, List.foldl_nil, List.length_append,
        List.length_cons, List.length_nil]
      rw [digitVal_digitChar _ (Nat.mod_lt _ (by omega))]
      have : a * 10 ^ ((natStr (n / 10)).length + (0 + 1)) =
          (a * 10 ^ (natStr (n / 10)).length) * 10 := by ring
      rw [this]
      omega
    · rw [natStr_lt_10 (by omega)]
      simp only [List.foldl_cons, List.foldl_nil, List.length_cons,
        List.length_nil, pow_one, zero_add]
      rw [digitVal_digitChar _ (by omega)]
      omega

theorem charsToNat_natStr (n : Nat) : charsToNat (natStr n) = some n := by
  unfold charsToNat
  rw [if_pos ⟨natStr_ne_nil n, fun c hc => mem_natStr_isDigit hc⟩]
  have := foldl_natStr n 0
  simp only [zero_mul, zero_add] at this
  rw [this]

theorem foldl_replicate_zero (k : Nat) (s : Str) :
    (List.replicate k '0' ++ s).foldl (fun a c => 10 * a + digitVal c) 0 =
      s.foldl (fun a c => 10 * a + digitVal c) 0 := by
  induction k with
  | zero => rfl
  | succ k ih => simpa [List.replicate_succ, digitVal] using ih

theorem charsToNat_padNum (w n : Nat) : charsToNat (padNum w n) = some n := by
  have hne : padNum w n ≠ [] := by
    simp only [padNum, ne_eq, List.append_eq_nil, not_and]
    intro _; exact natStr_ne_nil n
  unfold charsToNat
  rw [if_pos ⟨hne, fun c hc => mem_padNum_isDigit hc⟩]
  unfold padNum
  rw [foldl_replicate_zero]
  have := foldl_natStr n 0
  simp only [zero_mul, zero_add] at this
  rw [this]

/-- Python `int(s)`: optional surrounding whitespace, optional sign,
then decimal digits. -/
def pyInt (s : Str) : Option Int :=
  match pyStrip s with
  | '-' :: ds => (charsToNat ds).map (fun n => -(n : Int))
  | '+' :: ds => (charsToNat ds).map (fun n => (n : Int))
  | ds => (charsToNat ds).map (fun n => (n : Int))

/-- Python `str(i)` for an `int`. -/
def intToStr (i : Int) : Str :=
  if i < 0 then '-' :: natStr i.natAbs else natStr i.toNat

/-! ## `datetime.strptime(s, "%H:%M:%S")`

CPython compiles the format to a regex: `%H` matches 1-2 digits with value
at most 23, `%M` 1-2 digits at most 59, `%S` 1-2 digits at most 59 (the
regex admits 60-61 but the `datetime` constructor then rejects them), the
colons are literal, and the whole string must be consumed; any failure
raises `ValueError` (here: `none`). -/

/-- One numeric strptime field: 1 or 2 digit characters, value `≤ hi`. -/
def timeField (hi : Nat) (s : Str) : Option Nat :=
  if s.length ≤ 2 then
    (charsToNat s).bind (fun v => if v ≤ hi then some v else none)
  else none

/-- `datetime.strptime(s, "%H:%M:%S")`, reduced to the (hour, minute,
second) triple the caller reads back. -/
def parseTimeHMS (s : Str) : Option (Nat × Nat × Nat) :=
  match pySplit ':' s with
  | [h, m, sec] =>
    match timeField 23 h, timeField 59 m, timeField 59 sec with
    | some hv, some mv, some sv => some (hv, mv, sv)
    | _, _, _ => none
  | _ => none

/-! ## history-parsing/parser.py : convert_scheduled_start_date_time

```python
def convert_scheduled_start_date_time(date_str, seconds_str):
    original_date = datetime.strptime(date_str, "%Y-%m-%d")
    date_time = original_date + timedelta(seconds=int(seconds_str))
    lst = date_time.strftime("%Y-%m-%d %H:%M").split(" ")
    date_str = lst[0]
    time_str = lst[1]
    if time_str.startswith("00:"):
        minute = time_str.split(":")[1]
        time_str = "24:" + minute
    return date_str, time_str
```

The already-parsed calendar date stands in for `date_str` (the
`strptime` call is I/O glue); `datetime + timedelta(seconds=s)` advances
the date by `s / 86400` days and sets the time of day to `s % 86400`
seconds, which is exactly how CPython normalises the sum. -/

/-- A calendar date as `datetime.date` holds it. -/
structure Date where
  year : Nat
  month : Nat
  day : Nat
deriving DecidableEq

def isLeapYear (y : Nat) : Bool :=
  (y % 4 == 0 && y % 100 != 0) || y % 400 == 0

def daysInMonth (y m : Nat) : Nat :=
  if m = 2 then (if isLeapYear y then 29 else 28)
  else if m = 4 ∨ m = 6 ∨ m = 9 ∨ m = 11 then 30
  else 31

def nextDay (d : Date) : Date :=
  if d.day < daysInMonth d.year d.month then ⟨d.year, d.month, d.day + 1⟩
  else if d.month < 12 then ⟨d.year, d.month + 1, 1⟩
  else ⟨d.year + 1, 1, 1⟩

def addDays (d : Date) : Nat → Date
  | 0 => d
  | n + 1 => nextDay (addDays d n)

/-- `strftime("%Y-%m-%d")`. -/
def formatDate (d : Date) : Str :=
  padNum 4 d.year ++ ('-' :: (pad2 d.month ++ ('-' :: pad2 d.day)))

/-- `(date + timedelta(seconds=s)).strftime("%Y-%m-%d %H:%M")`. -/
def formatDateTimeMin (d : Date) (seconds : Nat) : Str :=
  formatDate (addDays d (seconds / 86400)) ++
    (' ' :: (pad2 (seconds % 86400 / 3600) ++ (':' :: pad2 (seconds % 86400 % 3600 / 60))))

def convert_scheduled_start_date_time (d : Date) (seconds : Nat) : Str × Str :=
  let lst := pySplit ' ' (formatDateTimeMin d seconds)
  let date_str := lst[0]!
  let time_str := lst[1]!
  let time_str2 :=
    if pyStartsWith (lit "00:") time_str then lit "24:" ++ (pySplit ':' time_str)[1]!
    else time_str
  (date_str, time_str2)

/-! ## history-parsing/parser.py : remove_earlier_duplicate_trips

```python
def remove_earlier_duplicate_trips():
    seen_trip_stop_combos = set()
    unique_lines = []
    with open(history_relative_path, "r") as history:
        lines = reversed(history.readlines())
    for line in lines:
        try:
            lst = line.strip().split(",")
            trip_id = lst[0]
            stop_id = lst[3]
            scheduled_start_date = lst[6]
            if (trip_id, stop_id, scheduled_start_date) not in seen_trip_stop_combos:
                unique_lines.append(line)
                seen_trip_stop_combos.add((trip_id, stop_id, scheduled_start_date))
        # the first line is un-parseable
        except ValueError:
            unique_lines.append(line)
    unique_lines.reverse()
    with open(history_relative_path, "w") as history:
        history.writelines(unique_lines)
```

A history log is a `List Str` of its lines.  Note that indexing a short
list raises `IndexError`, which is **not** a subclass of `ValueError`, so
the `except` arm is dead code and a line with fewer than 7 comma-separated
fields aborts the whole pass: that is the `none` result below. -/

/-- Fields 0, 3 and 6 of the comma-split stripped line; `none` models the
`IndexError` Python raises when the line has fewer than 7 fields. -/
def obsKey (line : Str) : Option (Str × Str × Str) :=
  let lst := pySplit ',' (pyStrip line)
  if 7 ≤ lst.length then some (lst[0]!, lst[3]!, lst[6]!) else none

/-- The loop of `remove_earlier_duplicate_trips`, running over the
reversed lines with the `seen_trip_stop_combos` set and the accumulated
`unique_lines`; the final `unique_lines.reverse()` is the base case. -/
def dedupGo : List Str → List (Str × Str × Str) → List Str → Option (List Str)
  | [], _, acc => some acc.reverse
  | line :: rest, seen, acc =>
    match obsKey line with
    | none => none
    | some k =>
      if k ∈ seen then dedupGo rest seen acc
      else dedupGo rest (k :: seen) (acc ++ [line])

def remove_earlier_duplicate_trips (lines : List Str) : Option (List Str) :=
  dedupGo lines.reverse [] []

/-! ## history-parsing/parser.py : find_scheduled_arrival_time

```python
def find_scheduled_arrival_time(stop_id, route_id, direction, scheduled_start_time):
    with open(...) as schedule:
        lines = schedule.readlines()
    for i in range(1, len(lines)):
        line = lines[i].strip()
        stop = line.split(",")
        schedule_style_direction = "0" if direction == "OUTBOUND" else "1"
        if stop[1] == route_id and stop[3] == schedule_style_direction \
                and stop[4].startswith(scheduled_start_time):
            if i == 1:
                break
            prev_line_route_id = lines[i - 1].split(",")[1]
            if prev_line_route_id != route_id:
                break
    for j in range(i + 1, len(lines)):
        line = lines[j].strip()
        stop = line.split(",")
        if stop[6] == stop_id:
            try:
                return datetime.strptime(stop[4], "%H:%M:%S").strftime("%H:%M")
            except ValueError:
                timeArr = stop[4].split(":")
                timeStr = ":".join([str(int(timeArr[0]) - 24), timeArr[1], timeArr[2]])
                return datetime.strptime(timeStr, "%H:%M:%S").strftime("%H:%M")
```

Python loop-variable semantics matter here: after the first loop, `i`
holds the break index, or `len(lines) - 1` when the loop completed
without breaking, or is *unbound* when `len(lines) <= 1` (then the second
loop's `range(i + 1, ...)` raises `NameError`).  When the second loop
finds no row, the function falls off the end and returns `None`. -/

/-- The `return`ed conversion of the matched row's `stop[4]`: strptime +
strftime truncation, with the `except ValueError` retry that subtracts 24
from the hour; errors are the exceptions escaping the handler. -/
def convertArrivalTime (s : Str) : Except String Str :=
  match parseTimeHMS s with
  | some (h, m, _) => .ok (pad2 h ++ ':' :: pad2 m)
  | none =>
    let timeArr := pySplit ':' s
    match pyInt timeArr[0]! with
    | none => .error "ValueError"
    | some hv =>
      if timeArr.length < 3 then .error "IndexError"
      else
        match parseTimeHMS (intToStr (hv - 24) ++ (':' :: (timeArr[1]! ++ (':' :: timeArr[2]!)))) with
        | some (h, m, _) => .ok (pad2 h ++ ':' :: pad2 m)
        | none => .error "ValueError"

/-- The first loop: called on `lines[i:]` with `prev = lines[i - 1]`;
returns the final value of the Python variable `i` (the break index, or
`len(lines) - 1 = i - 1` at the point the list runs out).  The cascaded
`if`s mirror the short-circuit evaluation of the `and` chain, erroring
exactly where Python would raise `IndexError`. -/
def blockLoop (route_id sdir sst : Str) : List Str → Str → Nat → Except String Nat
  | [], _, i => .ok (i - 1)
  | line :: rest, prev, i =>
    let stop := pySplit ',' (pyStrip line)
    if stop.length < 2 then .error "IndexError"
    else if stop[1]! ≠ route_id then blockLoop route_id sdir sst rest line (i + 1)
    else if stop.length < 4 then .error "IndexError"
    else if stop[3]! ≠ sdir then blockLoop route_id sdir sst rest line (i + 1)
    else if stop.length < 5 then .error "IndexError"
    else if pyStartsWith sst stop[4]! then
      if i = 1 then .ok i
      else
        let prevFields := pySplit ',' prev
        if prevFields.length < 2 then .error "IndexError"
        else if prevFields[1]! ≠ route_id then .ok i
        else blockLoop route_id sdir sst rest line (i + 1)
    else blockLoop route_id sdir sst rest line (i + 1)

/-- `"0" if direction == "OUTBOUND" else "1"`. -/
def scheduleDirection (direction : Str) : Str :=
  if direction = lit "OUTBOUND" then lit "0" else lit "1"

/-- The value of `i` after the first loop: `NameError` when the loop body
never ran (`len(lines) <= 1`), because the second loop then reads the
unbound variable `i`. -/
def blockIndex (schedule : List Str) (route_id sdir sst : Str) : Except String Nat :=
  match schedule with
  | [] => .error "NameError"
  | [_] => .error "NameError"
  | first :: second :: rest => blockLoop route_id sdir sst (second :: rest) first 1

/-- The second loop, called on `lines[j:]`; `.ok none` is the implicit
`return None` when the list runs out. -/
def stopLoop (stop_id : Str) : List Str → Except String (Option Str)
  | [] => .ok none
  | line :: rest =>
    let stop := pySplit ',' (pyStrip line)
    if stop.length < 7 then .error "IndexError"
    else if stop[6]! = stop_id then (convertArrivalTime stop[4]!).map some
    else stopLoop stop_id rest

def find_scheduled_arrival_time (schedule : List Str)
    (stop_id route_id direction scheduled_start_time : Str) :
    Except String (Option Str) :=
  match blockIndex schedule route_id (scheduleDirection direction) scheduled_start_time with
  | .error e => .error e
  | .ok i => stopLoop stop_id (schedule.drop (i + 1))

/-! ## history-parsing/parser.py : log_scheduled_arrival_times

```python
def log_scheduled_arrival_times():
    with open(history_relative_path, "r") as history:
        lines = history.readlines()
    new_lines = [lines[0]]
    for i in range(1, len(lines)):
        line = lines[i].strip()
        lst = line.split(",")
        if len(lst) == 10:
            new_lines.append(line + "\n")
            continue
        stop_id = lst[3]
        route_id = lst[4]
        direction = lst[5]
        scheduled_start_time = lst[7]
        scheduled_arrival_time = find_scheduled_arrival_time(
            stop_id, route_id, direction, scheduled_start_time)
        if scheduled_arrival_time != None:
            new_lines.append(line + f",{scheduled_arrival_time}\n")
    with open(history_relative_path, "w") as history:
        history.writelines(new_lines)
```

Lines are modelled without their trailing newline (`readlines` keeps it,
the writer adds it back).  `lines[0]` on an empty file raises
`IndexError`; a non-header line with fewer than 8 fields raises
`IndexError` at `lst[3]`/`lst[4]`/`lst[5]`/`lst[7]`. -/

def logGo (schedule : List Str) : List Str → Except String (List Str)
  | [] => .ok []
  | line :: rest =>
    let l := pyStrip line
    let lst := pySplit ',' l
    if lst.length = 10 then
      match logGo schedule rest with
      | .error e => .error e
      | .ok out => .ok (l :: out)
    else if lst.length < 8 then .error "IndexError"
    else
      match find_scheduled_arrival_time schedule lst[3]! lst[4]! lst[5]! lst[7]! with
      | .error e => .error e
      | .ok none => logGo schedule rest
      | .ok (some t) =>
        match logGo schedule rest with
        | .error e => .error e
        | .ok out => .ok ((l ++ ',' :: t) :: out)

def log_scheduled_arrival_times (schedule history : List Str) :
    Except String (List Str) :=
  match history with
  | [] => .error "IndexError"
  | header :: rest =>
    match logGo schedule rest with
    | .error e => .error e
    | .ok out => .ok (header :: out)

/-! ## schedule-parsing/parser.py : the timetable builder

```python
def readStops():
    stops = np.loadtxt("GTFS/stops.txt", ..., usecols=[0, 2, 4, 5], ...)
    stopsDict = dict()
    for stop in stops:
        stopId = stop[0]
        if stopId not in stopsDict:
            stopsDict[stopId] = stop
    return stops, stopsDict

def readTrips():
    trips = np.loadtxt("GTFS/trips.txt", ..., usecols=[0, 1, 2, 5], ...)
    tripsDict = dict()
    for trip in trips:
        tripId = trip[0]
        if tripId not in tripsDict:
            tripsDict[tripId] = trip
    return trips, tripsDict

def mergeStopTimesAndTrips():
    ... insert three zero columns after trip_id, append three zero columns,
    then for each stop_times row fill route_id/service_id/direction from
    tripsDict[tripId] and stop_name/lat/lon from stopsDict[stopId] when the
    id is present, and prepend the title row ...
```

The loaded tables are modelled as lists of rows already carrying the
selected columns.  A numpy zero written into the `S100` byte array and
read back as text is the string `"0.0"`, the sentinel left when an id has
no match. -/

structure TripRow where
  trip_id : Str
  route_id : Str
  service_id : Str
  direction_id : Str
deriving DecidableEq

structure StopRow where
  stop_id : Str
  stop_name : Str
  stop_lat : Str
  stop_lon : Str
deriving DecidableEq

structure StopTimeRow where
  trip_id : Str
  arrival_time : Str
  departure_time : Str
  stop_id : Str
deriving DecidableEq

/-- Lookup in an insertion-ordered association list (a Python dict whose
keys are strings). -/
def lookupAL {α : Type} : List (Str × α) → Str → Option α
  | [], _ => none
  | (k, v) :: d, k2 => if k = k2 then some v else lookupAL d k2

/-- `if k not in d: d[k] = v` - a fresh key is appended in insertion
order, an existing key leaves the dict unchanged. -/
def insertIfAbsent {α : Type} (d : List (Str × α)) (k : Str) (v : α) :
    List (Str × α) :=
  if (lookupAL d k).isSome then d else d ++ [(k, v)]

/-- The dict-building loops of `readTrips` / `readStops`. -/
def buildDict {α : Type} (key : α → Str) (rows : List α) : List (Str × α) :=
  rows.foldl (fun d r => insertIfAbsent d (key r) r) []

def readTripsDict (trips : List TripRow) : List (Str × TripRow) :=
  buildDict (fun t => t.trip_id) trips

def readStopsDict (stops : List StopRow) : List (Str × StopRow) :=
  buildDict (fun s => s.stop_id) stops

/-- A numpy float zero rendered into the byte table. -/
def zeroSentinel : Str := lit "0.0"

/-- One output row of the merge: stop_times fields in place, trip fields
at columns 1-3, stop fields at columns 7-9, zeros where the id is not in
the dict. -/
def mergeRow (tripsDict : List (Str × TripRow)) (stopsDict : List (Str × StopRow))
    (st : StopTimeRow) : List Str :=
  [st.trip_id,
   match lookupAL tripsDict st.trip_id with
   | some t => t.route_id
   | none => zeroSentinel,
   match lookupAL tripsDict st.trip_id with
   | some t => t.service_id
   | none => zeroSentinel,
   match lookupAL tripsDict st.trip_id with
   | some t => t.direction_id
   | none => zeroSentinel,
   st.arrival_time, st.departure_time, st.stop_id,
   match lookupAL stopsDict st.stop_id with
   | some s => s.stop_name
   | none => zeroSentinel,
   match lookupAL stopsDict st.stop_id with
   | some s => s.stop_lat
   | none => zeroSentinel,
   match lookupAL stopsDict st.stop_id with
   | some s => s.stop_lon
   | none => zeroSentinel]

def timetableTitles : List Str :=
  [lit "trip_id", lit "route_id", lit "service_id", lit "route_direction",
   lit "arrival_time", lit "departure_time", lit "stop_id", lit "stop_name",
   lit "stop_latitude", lit "stop_longitude"]

def mergeStopTimesAndTrips (stopTimes : List StopTimeRow) (trips : List TripRow)
    (stops : List StopRow) : List (List Str) :=
  timetableTitles :: stopTimes.map (mergeRow (readTripsDict trips) (readStopsDict stops))

/-! ## Shape lemmas for padded numbers and formatted dates -/

theorem pad2_lt_10 {h : Nat} (hh : h < 10) : pad2 h = ['0', Nat.digitChar h] := by
  unfold pad2 padNum
  rw [natStr_lt_10 hh]
  rfl

theorem pad2_ge_10 {h : Nat} (h10 : 10 ≤ h) (hh : h < 100) :
    pad2 h = [Nat.digitChar (h / 10), Nat.digitChar (h % 10)] := by
  unfold pad2 padNum
  rw [natStr_lt_100 h10 hh]
  rfl

theorem colon_not_mem_padNum (w n : Nat) : ':' ∉ padNum w n := by
  intro hmem
  have := mem_padNum_isDigit hmem
  exact absurd this (by decide)

theorem space_not_mem_padNum (w n : Nat) : ' ' ∉ padNum w n := by
  intro hmem
  have := mem_padNum_isDigit hmem
  exact absurd this (by decide)

theorem colon_not_mem_pad2 (n : Nat) : ':' ∉ pad2 n := colon_not_mem_padNum 2 n

theorem space_not_mem_pad2 (n : Nat) : ' ' ∉ pad2 n := space_not_mem_padNum 2 n

theorem space_not_mem_formatDate (d : Date) : ' ' ∉ formatDate d := by
  intro hmem
  unfold formatDate at hmem
  rcases List.mem_append.mp hmem with hmem | hmem
  · exact space_not_mem_padNum 4 d.year hmem
  · rcases List.mem_cons.mp hmem with hmem | hmem
    · exact absurd hmem (by decide)
    · rcases List.mem_append.mp hmem with hmem | hmem
      · exact space_not_mem_pad2 d.month hmem
      · rcases List.mem_cons.mp hmem with hmem | hmem
        · exact absurd hmem (by decide)
        · exact space_not_mem_pad2 d.day hmem

theorem digitChar_beq_zero : ∀ k, k < 10 → ('0' == Nat.digitChar k) = decide (k = 0) := by
  decide

theorem zero_beq_digitChar_pos : ∀ k, 1 ≤ k → k < 10 → ('0' == Nat.digitChar k) = false := by
  decide

theorem pyStartsWith_nil_left (s : Str) : pyStartsWith [] s = true := rfl

theorem pyStartsWith_cons_cons (p c : Char) (ps cs : Str) :
    pyStartsWith (p :: ps) (c :: cs) = ((p == c) && pyStartsWith ps cs) := rfl

/-- The `"00:"`-test of `convert_scheduled_start_date_time` on a
`strftime("%H:%M")` string succeeds exactly for hour 0. -/
theorem startsWith_00_pad2 {h : Nat} (hh : h < 24) (m : Nat) :
    pyStartsWith (lit "00:") (pad2 h ++ ':' :: pad2 m) = decide (h = 0) := by
  have hlit : lit "00:" = '0' :: '0' :: ':' :: [] := rfl
  by_cases h10 : h < 10
  · rw [pad2_lt_10 h10, hlit]
    simp only [List.cons_append, List.nil_append, pyStartsWith_cons_cons,
      pyStartsWith_nil_left]
    rw [digitChar_beq_zero h h10]
    simp
  · rw [pad2_ge_10 (by omega) (by omega), hlit]
    simp only [List.cons_append, List.nil_append, pyStartsWith_cons_cons]
    rw [zero_beq_digitChar_pos (h / 10) (by omega) (by omega)]
    have hne : ¬ h = 0 := by omega
    simp [hne]

/-- Splitting the `strftime("%H:%M")` output back on `':'`. -/
theorem pySplit_colon_pad2 (h m : Nat) :
    pySplit ':' (pad2 h ++ ':' :: pad2 m) = [pad2 h, pad2 m] := by
  rw [pySplit_append (pad2 m) (colon_not_mem_pad2 h),
      pySplit_of_not_mem (colon_not_mem_pad2 m)]

/-! ## C1 : the scheduled-time conversion -/

/-- Characterisation of `convert_scheduled_start_date_time`: the date
component is the date *after* adding the seconds (rolled over for
`sec ≥ 86400`), the time is minute precision, and a `00:xx` clock time is
re-expressed as `24:xx`. -/
theorem convert_eq (d : Date) (sec : Nat) :
    convert_scheduled_start_date_time d sec =
      (formatDate (addDays d (sec / 86400)),
       if sec % 86400 / 3600 = 0 then
         lit "24:" ++ pad2 (sec % 86400 % 3600 / 60)
       else
         pad2 (sec % 86400 / 3600) ++ ':' :: pad2 (sec % 86400 % 3600 / 60)) := by
  have hh : sec % 86400 / 3600 < 24 := by omega
  have hnos : ' ' ∉ pad2 (sec % 86400 / 3600) ++ (':' :: pad2 (sec % 86400 % 3600 / 60)) := by
    intro hmem
    rcases List.mem_append.mp hmem with hmem | hmem
    · exact space_not_mem_pad2 _ hmem
    · rcases List.mem_cons.mp hmem with hmem | hmem
      · exact absurd hmem (by decide)
      · exact space_not_mem_pad2 _ hmem
  simp only [convert_scheduled_start_date_time, formatDateTimeMin]
  rw [pySplit_append _ (space_not_mem_formatDate _), pySplit_of_not_mem hnos]
  simp only [List.getElem!_cons_zero, List.getElem!_cons_succ]
  rw [startsWith_00_pad2 hh, pySplit_colon_pad2]
  by_cases h0 : sec % 86400 / 3600 = 0
  · simp [h0]
  · simp [h0]

/-- C1, amended: for every date and every non-negative seconds count the
conversion returns a minute-precision time; a resulting clock time in
[00:00, 01:00) is re-expressed with hour 24, but it is attached to the
date reached after adding the seconds (the input date advanced by
`sec / 86400` days), so the returned date equals the input date exactly
for seconds counts below 86400. -/
theorem conversion_rolls_date (d : Date) (sec : Nat) :
    (convert_scheduled_start_date_time d sec =
      (formatDate (addDays d (sec / 86400)),
       if sec % 86400 / 3600 = 0 then
         lit "24:" ++ pad2 (sec % 86400 % 3600 / 60)
       else
         pad2 (sec % 86400 / 3600) ++ ':' :: pad2 (sec % 86400 % 3600 / 60))) ∧
    (sec < 86400 → (convert_scheduled_start_date_time d sec).1 = formatDate d) := by
  refine ⟨convert_eq d sec, fun hlt => ?_⟩
  rw [convert_eq d sec]
  have : sec / 86400 = 0 := Nat.div_eq_of_lt hlt
  rw [this]
  rfl

theorem conversion_rolls_date_witness :
    convert_scheduled_start_date_time ⟨2023, 12, 11⟩ 60 =
      (formatDate (addDays ⟨2023, 12, 11⟩ (60 / 86400)), lit "24:" ++ pad2 (60 % 86400 % 3600 / 60)) ∧
    (convert_scheduled_start_date_time ⟨2023, 12, 11⟩ 60).1 = formatDate ⟨2023, 12, 11⟩ := by
  have h := conversion_rolls_date ⟨2023, 12, 11⟩ 60
  exact ⟨h.1.trans (by rfl), h.2 (by omega)⟩

/-- C1, counterexample to the claim as stated: 86460 seconds past
midnight of 2023-12-11 is 00:01 of the *next* day; the code re-expresses
the time as `24:01` but attaches it to the rolled-over date 2023-12-12,
not to the original input date. -/
theorem conversion_rolls_date_counterexample :
    convert_scheduled_start_date_time ⟨2023, 12, 11⟩ 86460 =
      (lit "2023-12-12", lit "24:01") ∧
    (lit "2023-12-12" : Str) ≠ lit "2023-12-11" := by
  constructor
  · rfl
  · decide

/-! ## C3 : unparseable lines crash the deduplicator -/

/-- The header line that `write_first_line` puts at the top of
`history.txt`. -/
def historyHeader : Str :=
  lit "tatripid,log_time,stop_name,stop_id,route_id,direction,scheduled_start_date,scheduled_start_time,actual_arrival_time,scheduled_arrival_time"

/-- C3 is a code bug: a line with fewer than 7 comma-separated fields
makes `lst[3]` / `lst[6]` raise `IndexError`, which the `except
ValueError` arm does not catch (IndexError is not a ValueError subclass),
so the pass aborts instead of retaining the line verbatim. -/
theorem dedup_crashes_on_short_line :
    remove_earlier_duplicate_trips [historyHeader, lit "oops"] = none ∧
    obsKey (lit "oops") = none := by
  constructor <;> rfl

/-! ## C10 : empty-log behaviour of the two passes -/

/-- C10: the Schedule Matcher indexes `lines[0]` and so fails with
`IndexError` on a zero-line log, while the Deduplicator's loop body never
runs and the log is rewritten empty. -/
theorem empty_log_behaviour (schedule : List Str) :
    log_scheduled_arrival_times schedule [] = .error "IndexError" ∧
    remove_earlier_duplicate_trips ([] : List Str) = some [] :=
  ⟨rfl, rfl⟩

theorem empty_log_behaviour_witness :
    log_scheduled_arrival_times [historyHeader] [] = .error "IndexError" ∧
    remove_earlier_duplicate_trips ([] : List Str) = some [] :=
  empty_log_behaviour [historyHeader]

/-! ## C4 / C5 : the deduplicator keeps the last-written duplicate

The backward scan with a seen-set keeps, for each key, exactly the last
occurrence in forward order.  `keepLasts lines banned` is that
specification: drop a line whose key recurs later (or lies in `banned`);
it is related to the code through the `keepFirsts` / `keysSeen`
description of the backward loop. -/

/-- Every line of the log parses far enough for the key extraction. -/
def allParse (lines : List Str) : Prop := ∀ l ∈ lines, (obsKey l).isSome

/-- Specification: keep each line whose key does not occur again later
and is not banned.  (The `none` arm is unreachable on parseable logs.) -/
def keepLasts : List Str → List (Str × Str × Str) → List Str
  | [], _ => []
  | l :: ls, banned =>
    match obsKey l with
    | none => []
    | some k =>
      if k ∈ banned ∨ ∃ l2 ∈ ls, obsKey l2 = some k then keepLasts ls banned
      else l :: keepLasts ls banned

/-- Forward description of the backward loop: keep first occurrences
relative to a seen-set. -/
def keepFirsts : List Str → List (Str × Str × Str) → List Str
  | [], _ => []
  | l :: ls, seen =>
    match obsKey l with
    | none => []
    | some k => if k ∈ seen then keepFirsts ls seen else l :: keepFirsts ls (k :: seen)

/-- The seen-set after processing a list of lines. -/
def keysSeen : List Str → List (Str × Str × Str) → List (Str × Str × Str)
  | [], seen => seen
  | l :: ls, seen =>
    match obsKey l with
    | none => seen
    | some k => if k ∈ seen then keysSeen ls seen else keysSeen ls (k :: seen)

theorem dedupGo_eq_keepFirsts :
    ∀ (rev : List Str) (seen : List (Str × Str × Str)) (acc : List Str),
      allParse rev →
      dedupGo rev seen acc = some ((acc ++ keepFirsts rev seen).reverse) := by
  intro rev
  induction rev with
  | nil => intro seen acc _; simp [dedupGo, keepFirsts]
  | cons l ls ih =>
    intro seen acc hp
    obtain ⟨k, hk⟩ := Option.isSome_iff_exists.mp (hp l (by simp))
    have hptail : allParse ls := fun x hx => hp x (by simp [hx])
    simp only [dedupGo, keepFirsts, hk]
    by_cases hmem : k ∈ seen
    · simp only [if_pos hmem]
      exact ih seen acc hptail
    · simp only [if_neg hmem]
      rw [ih (k :: seen) (acc ++ [l]) hptail, List.append_assoc]
      rfl

theorem dedupGo_ok_allParse :
    ∀ (rev : List Str) (seen : List (Str × Str × Str)) (acc out : List Str),
      dedupGo rev seen acc = some out → allParse rev := by
  intro rev
  induction rev with
  | nil => intro _ _ _ _ l hl; exact absurd hl (List.not_mem_nil l)
  | cons l ls ih =>
    intro seen acc out hgo x hx
    rcases hk : obsKey l with _ | k
    · rw [dedupGo, hk] at hgo; exact absurd hgo (by simp)
    · rcases List.mem_cons.mp hx with hx | hx
      · subst hx; simp [hk]
      · simp only [dedupGo, hk] at hgo
        by_cases hmem : k ∈ seen
        · rw [if_pos hmem] at hgo; exact ih seen acc out hgo x hx
        · rw [if_neg hmem] at hgo; exact ih _ _ out hgo x hx

theorem mem_keysSeen :
    ∀ (xs : List Str) (s : List (Str × Str × Str)) (k : Str × Str × Str),
      allParse xs →
      (k ∈ keysSeen xs s ↔ k ∈ s ∨ ∃ x ∈ xs, obsKey x = some k) := by
  intro xs
  induction xs with
  | nil => intro s k _; simp [keysSeen]
  | cons l ls ih =>
    intro s k hp
    obtain ⟨k0, hk0⟩ := Option.isSome_iff_exists.mp (hp l (by simp))
    have hptail : allParse ls := fun x hx => hp x (by simp [hx])
    have hinj : (obsKey l = some k) ↔ k0 = k := by
      rw [hk0]
      exact ⟨fun h => Option.some.inj h, fun h => by rw [h]⟩
    have hcons : (∃ x ∈ l :: ls, obsKey x = some k) ↔
        (k0 = k ∨ ∃ x ∈ ls, obsKey x = some k) := by
      constructor
      · rintro ⟨x, hx, hpx⟩
        rcases List.mem_cons.mp hx with rfl | hx2
        · exact Or.inl (hinj.mp hpx)
        · exact Or.inr ⟨x, hx2, hpx⟩
      · rintro (h | ⟨x, hx, hpx⟩)
        · exact ⟨l, List.mem_cons_self l ls, hinj.mpr h⟩
        · exact ⟨x, List.mem_cons_of_mem l hx, hpx⟩
    simp only [keysSeen, hk0]
    by_cases hmem : k0 ∈ s
    · rw [if_pos hmem, ih s k hptail, hcons]
      constructor
      · rintro (h | h)
        · exact Or.inl h
        · exact Or.inr (Or.inr h)
      · rintro (h | rfl | h)
        · exact Or.inl h
        · exact Or.inl hmem
        · exact Or.inr h
    · rw [if_neg hmem, ih (k0 :: s) k hptail, hcons]
      constructor
      · rintro (h | h)
        · rcases List.mem_cons.mp h with rfl | h2
          · exact Or.inr (Or.inl rfl)
          · exact Or.inl h2
        · exact Or.inr (Or.inr h)
      · rintro (h | rfl | h)
        · exact Or.inl (List.mem_cons_of_mem k0 h)
        · exact Or.inl (List.mem_cons_self k0 s)
        · exact Or.inr h

theorem keepFirsts_append :
    ∀ (xs ys : List Str) (s : List (Str × Str × Str)), allParse xs →
      keepFirsts (xs ++ ys) s = keepFirsts xs s ++ keepFirsts ys (keysSeen xs s) := by
  intro xs
  induction xs with
  | nil => intro ys s _; simp [keepFirsts, keysSeen]
  | cons l ls ih =>
    intro ys s hp
    obtain ⟨k0, hk0⟩ := Option.isSome_iff_exists.mp (hp l (by simp))
    have hptail : allParse ls := fun x hx => hp x (by simp [hx])
    simp only [List.cons_append, keepFirsts, keysSeen, hk0]
    by_cases hmem : k0 ∈ s
    · simp only [if_pos hmem]
      exact ih ys s hptail
    · simp only [if_neg hmem]
      have h3 := ih ys (k0 :: s) hptail
      simp only [List.append_eq] at h3 ⊢
      rw [h3, List.cons_append]

theorem keepFirsts_reverse :
    ∀ (ls : List Str) (s : List (Str × Str × Str)), allParse ls →
      (keepFirsts ls.reverse s).reverse = keepLasts ls s := by
  intro ls
  induction ls with
  | nil => intro s _; simp [keepFirsts, keepLasts]
  | cons l ls2 ih =>
    intro s hp
    obtain ⟨k0, hk0⟩ := Option.isSome_iff_exists.mp (hp l (by simp))
    have hptail : allParse ls2 := fun x hx => hp x (by simp [hx])
    have hprev : allParse ls2.reverse := fun x hx => hptail x (List.mem_reverse.mp hx)
    rw [List.reverse_cons, keepFirsts_append ls2.reverse [l] s hprev]
    have hsingle : keepFirsts [l] (keysSeen ls2.reverse s) =
        if k0 ∈ keysSeen ls2.reverse s then [] else [l] := by
      simp only [keepFirsts, hk0]
    have hcond : k0 ∈ keysSeen ls2.reverse s ↔
        (k0 ∈ s ∨ ∃ l2 ∈ ls2, obsKey l2 = some k0) := by
      rw [mem_keysSeen ls2.reverse s k0 hprev]
      constructor
      · rintro (h | ⟨x, hx, hpx⟩)
        · exact Or.inl h
        · exact Or.inr ⟨x, List.mem_reverse.mp hx, hpx⟩
      · rintro (h | ⟨x, hx, hpx⟩)
        · exact Or.inl h
        · exact Or.inr ⟨x, List.mem_reverse.mpr hx, hpx⟩
    rw [hsingle, List.reverse_append, ih s hptail]
    simp only [keepLasts, hk0]
    by_cases hc : k0 ∈ s ∨ ∃ l2 ∈ ls2, obsKey l2 = some k0
    · rw [if_pos (hcond.mpr hc), if_pos hc]
      simp
    · rw [if_neg (fun h => hc (hcond.mp h)), if_neg hc]
      simp

/-- On a log whose lines all parse, the deduplicator succeeds and keeps
exactly the last occurrence of every (trip_id, stop_id,
scheduled_start_date) key, in forward order. -/
theorem remove_eq_keepLasts (lines : List Str) (hp : allParse lines) :
    remove_earlier_duplicate_trips lines = some (keepLasts lines []) := by
  have hprev : allParse lines.reverse := fun x hx => hp x (List.mem_reverse.mp hx)
  unfold remove_earlier_duplicate_trips
  rw [dedupGo_eq_keepFirsts lines.reverse [] [] hprev]
  rw [List.nil_append, keepFirsts_reverse lines [] hp]

theorem keepLasts_sublist :
    ∀ (ls : List Str) (b : List (Str × Str × Str)), (keepLasts ls b).Sublist ls := by
  intro ls
  induction ls with
  | nil => intro b; simp [keepLasts]
  | cons l ls2 ih =>
    intro b
    rcases hk : obsKey l with _ | k
    · simp only [keepLasts, hk]
      exact List.nil_sublist _
    · simp only [keepLasts, hk]
      by_cases hc : k ∈ b ∨ ∃ l2 ∈ ls2, obsKey l2 = some k
      · rw [if_pos hc]
        exact (ih b).cons l
      · rw [if_neg hc]
        exact (ih b).cons₂ l

theorem keepLasts_pairwise :
    ∀ (ls : List Str) (b : List (Str × Str × Str)), allParse ls →
      (keepLasts ls b).Pairwise (fun a a2 => obsKey a ≠ obsKey a2) := by
  intro ls
  induction ls with
  | nil => intro b _; simp [keepLasts]
  | cons l ls2 ih =>
    intro b hp
    obtain ⟨k0, hk0⟩ := Option.isSome_iff_exists.mp (hp l (by simp))
    have hptail : allParse ls2 := fun x hx => hp x (by simp [hx])
    simp only [keepLasts, hk0]
    by_cases hc : k0 ∈ b ∨ ∃ l2 ∈ ls2, obsKey l2 = some k0
    · rw [if_pos hc]
      exact ih b hptail
    · rw [if_neg hc]
      refine List.Pairwise.cons ?_ (ih b hptail)
      intro y hy heq
      have hysub : y ∈ ls2 := (keepLasts_sublist ls2 b).subset hy
      exact hc (Or.inr ⟨y, hysub, by rw [← heq, hk0]⟩)

theorem keepLasts_complete :
    ∀ (ls : List Str) (b : List (Str × Str × Str)), allParse ls →
      ∀ l ∈ ls, ∀ k, obsKey l = some k → k ∉ b →
        ∃ l2 ∈ keepLasts ls b, obsKey l2 = some k := by
  intro ls
  induction ls with
  | nil => intro b _ l hl; exact absurd hl (List.not_mem_nil l)
  | cons l0 ls2 ih =>
    intro b hp l hl k hk hkb
    obtain ⟨k0, hk0⟩ := Option.isSome_iff_exists.mp (hp l0 (by simp))
    have hptail : allParse ls2 := fun x hx => hp x (by simp [hx])
    simp only [keepLasts, hk0]
    by_cases hc : k0 ∈ b ∨ ∃ l2 ∈ ls2, obsKey l2 = some k0
    · rw [if_pos hc]
      rcases List.mem_cons.mp hl with rfl | hl2
      · have hkk0 : k = k0 := by rw [hk] at hk0; exact Option.some.inj hk0
        subst hkk0
        rcases hc with hc | ⟨l2, hl2, hpl2⟩
        · exact absurd hc hkb
        · exact ih b hptail l2 hl2 k hpl2 hkb
      · exact ih b hptail l hl2 k hk hkb
    · rw [if_neg hc]
      rcases List.mem_cons.mp hl with rfl | hl2
      · exact ⟨l, List.mem_cons_self _ _, hk⟩
      · by_cases hkk0 : k = k0
        · subst hkk0
          exact ⟨l0, List.mem_cons_self _ _, hk0⟩
        · obtain ⟨l2, hl2m, hpl2⟩ := ih b hptail l hl2 k hk hkb
          exact ⟨l2, List.mem_cons_of_mem l0 hl2m, hpl2⟩

/-- C4: when the deduplicator completes, the output is `keepLasts` of the
input - a sublist (forward order preserved) with pairwise-distinct keys
in which, for every input line, the *last* line carrying its key is the
one retained, every key still being represented. -/
theorem dedup_keeps_last (lines out : List Str)
    (hok : remove_earlier_duplicate_trips lines = some out) :
    out = keepLasts lines [] ∧
    out.Sublist lines ∧
    out.Pairwise (fun a a2 => obsKey a ≠ obsKey a2) ∧
    ∀ l ∈ lines, ∃ l2 ∈ out, obsKey l2 = obsKey l := by
  have hp : allParse lines := by
    intro x hx
    exact dedupGo_ok_allParse lines.reverse [] [] out hok x (List.mem_reverse.mpr hx)
  have heq : out = keepLasts lines [] := by
    have h2 := remove_eq_keepLasts lines hp
    rw [hok] at h2
    exact Option.some.inj h2
  subst heq
  refine ⟨rfl, keepLasts_sublist lines [], keepLasts_pairwise lines [] hp, ?_⟩
  intro l hl
  obtain ⟨k, hk⟩ := Option.isSome_iff_exists.mp (hp l hl)
  obtain ⟨l2, hl2, hpl2⟩ :=
    keepLasts_complete lines [] hp l hl k hk (List.not_mem_nil k)
  exact ⟨l2, hl2, by rw [hpl2, hk]⟩

/-- A sequence with pairwise-distinct keys is a fixed point of
`keepLasts`. -/
theorem keepLasts_of_pairwise :
    ∀ ls : List Str, allParse ls →
      ls.Pairwise (fun a a2 => obsKey a ≠ obsKey a2) → keepLasts ls [] = ls := by
  intro ls
  induction ls with
  | nil => intro _ _; rfl
  | cons l ls2 ih =>
    intro hp hpw
    obtain ⟨k0, hk0⟩ := Option.isSome_iff_exists.mp (hp l (by simp))
    have hptail : allParse ls2 := fun x hx => hp x (by simp [hx])
    rcases List.pairwise_cons.mp hpw with ⟨hhead, htail⟩
    simp only [keepLasts, hk0]
    have hc : ¬ (k0 ∈ ([] : List (Str × Str × Str)) ∨ ∃ l2 ∈ ls2, obsKey l2 = some k0) := by
      rintro (h | ⟨l2, hl2, hpl2⟩)
      · exact absurd h (List.not_mem_nil k0)
      · exact hhead l2 hl2 (by rw [hk0, hpl2])
    rw [if_neg hc, ih hptail htail]

/-- C5: the deduplicator is idempotent - composing the pass with itself
(in the `Option` monad, so a crashing log crashes identically) equals the
single pass; in particular re-running it on its own output returns that
output unchanged. -/
theorem dedup_idempotent (lines : List Str) :
    (remove_earlier_duplicate_trips lines).bind remove_earlier_duplicate_trips =
      remove_earlier_duplicate_trips lines := by
  rcases hok : remove_earlier_duplicate_trips lines with _ | out
  · rfl
  · have hp : allParse lines := by
      intro x hx
      exact dedupGo_ok_allParse lines.reverse [] [] out hok x (List.mem_reverse.mpr hx)
    have heq : out = keepLasts lines [] := by
      have h2 := remove_eq_keepLasts lines hp
      rw [hok] at h2
      exact Option.some.inj h2
    have hsub : out.Sublist lines := heq ▸ keepLasts_sublist lines []
    have hpw : out.Pairwise (fun a a2 => obsKey a ≠ obsKey a2) :=
      heq ▸ keepLasts_pairwise lines [] hp
    have hpout : allParse out := fun x hx => hp x (hsub.subset hx)
    have : remove_earlier_duplicate_trips out = some out := by
      rw [remove_eq_keepLasts out hpout, keepLasts_of_pairwise out hpout hpw]
    simp [Option.bind, this]

/-- Concrete log used to witness the dedup theorems: two rows with the
same (trip_id, stop_id, scheduled_start_date) key and one with a
different key. -/
def dupRowEarly : Str :=
  lit "100,2023-12-11T06:40,StopB,1177,61A,OUTBOUND,2023-12-11,06:35,06:40"

def dupRowLate : Str :=
  lit "100,2023-12-11T06:41,StopB,1177,61A,OUTBOUND,2023-12-11,06:35,06:45"

def otherRow : Str :=
  lit "200,2023-12-11T06:41,StopA,36,61A,OUTBOUND,2023-12-11,06:40,06:50"

theorem dedup_keeps_last_witness :
    remove_earlier_duplicate_trips [historyHeader, dupRowEarly, dupRowLate, otherRow] =
      some [historyHeader, dupRowLate, otherRow] ∧
    ([historyHeader, dupRowLate, otherRow] =
      keepLasts [historyHeader, dupRowEarly, dupRowLate, otherRow] [] ∧
    List.Sublist [historyHeader, dupRowLate, otherRow]
      [historyHeader, dupRowEarly, dupRowLate, otherRow] ∧
    List.Pairwise (fun a a2 => obsKey a ≠ obsKey a2)
      [historyHeader, dupRowLate, otherRow] ∧
    ∀ l ∈ [historyHeader, dupRowEarly, dupRowLate, otherRow],
      ∃ l2 ∈ [historyHeader, dupRowLate, otherRow], obsKey l2 = obsKey l) := by
  have hok : remove_earlier_duplicate_trips
      [historyHeader, dupRowEarly, dupRowLate, otherRow] =
      some [historyHeader, dupRowLate, otherRow] := by decide
  exact ⟨hok, dedup_keeps_last _ _ hok⟩

theorem dedup_idempotent_witness :
    (remove_earlier_duplicate_trips [historyHeader, dupRowEarly, dupRowLate, otherRow]).bind
        remove_earlier_duplicate_trips =
      remove_earlier_duplicate_trips [historyHeader, dupRowEarly, dupRowLate, otherRow] :=
  dedup_idempotent _

/-! ## Arrival-time truncation and 24-hour normalisation -/

theorem digit_not_pySpace {c : Char} (h : c.isDigit = true) : pySpace c = false := by
  have hne : ∀ x : Char, x.isDigit = false → (c == x) = false := by
    intro x hx
    refine beq_eq_false_iff_ne.mpr (fun e => ?_)
    rw [e] at h
    rw [h] at hx
    cases hx
  unfold pySpace
  rw [hne ' ' (by decide), hne '\t' (by decide), hne '\n' (by decide),
      hne '\r' (by decide), hne '\x0b' (by decide), hne '\x0c' (by decide)]
  rfl

theorem dropWhile_pySpace_of_digits {s : Str} (hd : ∀ c ∈ s, c.isDigit = true) :
    s.dropWhile pySpace = s := by
  cases s with
  | nil => rfl
  | cons c cs =>
    rw [List.dropWhile_cons, digit_not_pySpace (hd c (by simp))]
    simp

theorem pyStrip_of_digits {s : Str} (hd : ∀ c ∈ s, c.isDigit = true) :
    pyStrip s = s := by
  unfold pyStrip
  rw [dropWhile_pySpace_of_digits hd,
      dropWhile_pySpace_of_digits (fun c hc => hd c (List.mem_reverse.mp hc)),
      List.reverse_reverse]

/-- `int(s)` on a non-empty all-digit string is its numeric value. -/
theorem pyInt_of_digits {s : Str} (hne : s ≠ []) (hd : ∀ c ∈ s, c.isDigit = true) :
    pyInt s = (charsToNat s).map (fun n => (n : Int)) := by
  unfold pyInt
  rw [pyStrip_of_digits hd]
  split
  · exact absurd (hd _ (List.mem_cons_self _ _)) (by decide)
  · exact absurd (hd _ (List.mem_cons_self _ _)) (by decide)
  · rfl

/-- A `strftime("%H:%M:%S")`-shaped string (zero-padded fields, the form
every GTFS arrival_time in the timetable takes). -/
def timeHMS (h m s : Nat) : Str :=
  pad2 h ++ (':' :: (pad2 m ++ (':' :: pad2 s)))

theorem pySplit_colon_timeHMS (h m s : Nat) :
    pySplit ':' (timeHMS h m s) = [pad2 h, pad2 m, pad2 s] := by
  unfold timeHMS
  rw [pySplit_append _ (colon_not_mem_pad2 h),
      pySplit_append _ (colon_not_mem_pad2 m),
      pySplit_of_not_mem (colon_not_mem_pad2 s)]

theorem charsToNat_pad2 (n : Nat) : charsToNat (pad2 n) = some n :=
  charsToNat_padNum 2 n

theorem timeField_pad2 {hi n : Nat} (hn : n < 100) :
    timeField hi (pad2 n) = if n ≤ hi then some n else none := by
  unfold timeField
  rw [if_pos (le_of_eq (padNum_two_length hn)), charsToNat_pad2]
  rfl

theorem timeField_natStr {hi n : Nat} (hn : n < 100) :
    timeField hi (natStr n) = if n ≤ hi then some n else none := by
  unfold timeField
  rw [if_pos (natStr_length_le_two hn), charsToNat_natStr]
  rfl

theorem parseTimeHMS_valid {h m s : Nat} (hh : h ≤ 23) (hm : m ≤ 59) (hs : s ≤ 59) :
    parseTimeHMS (timeHMS h m s) = some (h, m, s) := by
  simp only [parseTimeHMS, pySplit_colon_timeHMS]
  rw [timeField_pad2 (show h < 100 by omega), timeField_pad2 (show m < 100 by omega),
      timeField_pad2 (show s < 100 by omega), if_pos hh, if_pos hm, if_pos hs]

theorem parseTimeHMS_hour_ge_24 {h : Nat} (m s : Nat) (h24 : 24 ≤ h) (hlt : h < 100) :
    parseTimeHMS (timeHMS h m s) = none := by
  simp only [parseTimeHMS, pySplit_colon_timeHMS]
  rw [timeField_pad2 hlt, if_neg (by omega)]

/-- Truncation: a valid `HH:MM:SS` arrival time is returned as `HH:MM`. -/
theorem convertArrivalTime_valid {h m s : Nat} (hh : h ≤ 23) (hm : m ≤ 59) (hs : s ≤ 59) :
    convertArrivalTime (timeHMS h m s) = .ok (pad2 h ++ ':' :: pad2 m) := by
  unfold convertArrivalTime
  rw [parseTimeHMS_valid hh hm hs]

theorem colon_not_mem_natStr (n : Nat) : ':' ∉ natStr n := by
  intro hmem
  exact absurd (mem_natStr_isDigit hmem) (by decide)

theorem parseTimeHMS_natStr_valid {k m s : Nat} (hk : k ≤ 23) (hm : m ≤ 59) (hs : s ≤ 59) :
    parseTimeHMS (natStr k ++ (':' :: (pad2 m ++ (':' :: pad2 s)))) = some (k, m, s) := by
  have h1 : pySplit ':' (natStr k ++ (':' :: (pad2 m ++ (':' :: pad2 s)))) =
      [natStr k, pad2 m, pad2 s] := by
    rw [pySplit_append _ (colon_not_mem_natStr k),
        pySplit_append _ (colon_not_mem_pad2 m),
        pySplit_of_not_mem (colon_not_mem_pad2 s)]
  simp only [parseTimeHMS, h1]
  rw [timeField_natStr (show k < 100 by omega), timeField_pad2 (show m < 100 by omega),
      timeField_pad2 (show s < 100 by omega), if_pos hk, if_pos hm, if_pos hs]

/-- Normalisation: an `HH:MM:SS` time with hour 24-47 fails the first
parse, has 24 subtracted from its hour by the `except ValueError` arm and
is returned as the wall-clock `HH:MM`. -/
theorem convertArrivalTime_sub24 {h m s : Nat} (h24 : 24 ≤ h) (h47 : h ≤ 47)
    (hm : m ≤ 59) (hs : s ≤ 59) :
    convertArrivalTime (timeHMS h m s) = .ok (pad2 (h - 24) ++ ':' :: pad2 m) := by
  have hpadne : pad2 h ≠ [] := by
    unfold pad2 padNum
    simp only [ne_eq, List.append_eq_nil, not_and]
    intro _; exact natStr_ne_nil h
  have hpdig : ∀ c ∈ pad2 h, c.isDigit = true := fun c hc => mem_padNum_isDigit hc
  have hstr : intToStr ((h : Int) - 24) = natStr (h - 24) := by
    have hnn : ¬ ((h : Int) - 24 < 0) := by omega
    have hsub : ((h : Int) - 24).toNat = h - 24 := by omega
    unfold intToStr
    rw [if_neg hnn, hsub]
  have hparse2 := parseTimeHMS_natStr_valid (k := h - 24) (by omega) hm hs
  have hpyint : pyInt (pad2 h) = some ((h : Int)) := by
    rw [pyInt_of_digits hpadne hpdig, charsToNat_pad2]
    rfl
  have hlen : ¬ ([pad2 h, pad2 m, pad2 s] : List Str).length < 3 := by simp
  simp only [convertArrivalTime, parseTimeHMS_hour_ge_24 m s h24 (by omega),
    pySplit_colon_timeHMS, List.getElem!_cons_zero, List.getElem!_cons_succ, hpyint]
  rw [if_neg hlen, hstr, hparse2]

/-! ## The two scan loops of the Schedule Matcher -/

/-- A timetable line as the builder writes it: no surrounding whitespace
and at least 7 comma-separated fields. -/
def wfLine (l : Str) : Prop := pyStrip l = l ∧ 7 ≤ (pySplit ',' l).length

instance (l : Str) : Decidable (wfLine l) := by
  unfold wfLine
  infer_instance

/-- A successful hit of the second loop comes from some row of the
scanned suffix whose field 6 is the stop id, converted by
`convertArrivalTime`. -/
theorem stopLoop_ok_some :
    ∀ (rows : List Str) (sid t : Str), stopLoop sid rows = .ok (some t) →
      ∃ (j : Nat) (line : Str), rows[j]? = some line ∧
        (pySplit ',' (pyStrip line))[6]! = sid ∧
        convertArrivalTime ((pySplit ',' (pyStrip line))[4]!) = .ok t := by
  intro rows
  induction rows with
  | nil => intro sid t h; exact absurd h (by simp [stopLoop])
  | cons line rest ih =>
    intro sid t h
    simp only [stopLoop] at h
    by_cases h7 : (pySplit ',' (pyStrip line)).length < 7
    · rw [if_pos h7] at h; exact absurd h (by simp)
    · rw [if_neg h7] at h
      by_cases h6 : (pySplit ',' (pyStrip line))[6]! = sid
      · rw [if_pos h6] at h
        cases hc : convertArrivalTime ((pySplit ',' (pyStrip line))[4]!) with
        | error e => rw [hc] at h; exact absurd h (by simp [Except.map])
        | ok v =>
          rw [hc] at h
          simp only [Except.map] at h
          have hv : v = t := by
            have := Except.ok.inj h
            exact Option.some.inj this
          exact ⟨0, line, by simp, h6, by rw [hc, hv]⟩
      · rw [if_neg h6] at h
        obtain ⟨j, l2, hget, h62, hconv⟩ := ih sid t h
        exact ⟨j + 1, l2, by simpa using hget, h62, hconv⟩

/-- When no row of the scanned suffix carries the stop id, the second
loop falls off the end and returns `None`. -/
theorem stopLoop_none :
    ∀ (rows : List Str) (sid : Str),
      (∀ line ∈ rows, 7 ≤ (pySplit ',' (pyStrip line)).length) →
      (∀ line ∈ rows, (pySplit ',' (pyStrip line))[6]! ≠ sid) →
      stopLoop sid rows = .ok none := by
  intro rows
  induction rows with
  | nil => intro _ _ _; rfl
  | cons line rest ih =>
    intro sid h7 hne
    simp only [stopLoop]
    rw [if_neg (show ¬ (pySplit ',' (pyStrip line)).length < 7 from by
          have := h7 line (List.mem_cons_self _ _); omega),
        if_neg (hne line (List.mem_cons_self _ _))]
    exact ih sid (fun l hl => h7 l (List.mem_cons_of_mem _ hl))
      (fun l hl => hne l (List.mem_cons_of_mem _ hl))

/-- On a well-formed timetable the first loop always terminates with a
value for `i` - no field access can raise. -/
theorem blockLoop_total (route sdir sst : Str) :
    ∀ (rest : List Str) (prev : Str) (i : Nat),
      (∀ l ∈ rest, wfLine l) → 2 ≤ (pySplit ',' prev).length →
      ∃ i2, blockLoop route sdir sst rest prev i = .ok i2 := by
  intro rest
  induction rest with
  | nil => intro prev i _ _; exact ⟨i - 1, rfl⟩
  | cons line rest2 ih =>
    intro prev i hwf hprev
    obtain ⟨hstrip, hlen⟩ := hwf line (List.mem_cons_self _ _)
    have hwft : ∀ l ∈ rest2, wfLine l := fun l hl2 => hwf l (List.mem_cons_of_mem _ hl2)
    have hlen2 : 2 ≤ (pySplit ',' line).length := by omega
    have hrec := ih line (i + 1) hwft hlen2
    simp only [blockLoop, hstrip]
    rw [if_neg (show ¬ (pySplit ',' line).length < 2 by omega)]
    by_cases hc2 : (pySplit ',' line)[1]! ≠ route
    · rw [if_pos hc2]; exact hrec
    · rw [if_neg hc2, if_neg (show ¬ (pySplit ',' line).length < 4 by omega)]
      by_cases hc4 : (pySplit ',' line)[3]! ≠ sdir
      · rw [if_pos hc4]; exact hrec
      · rw [if_neg hc4, if_neg (show ¬ (pySplit ',' line).length < 5 by omega)]
        by_cases hc6 : pyStartsWith sst (pySplit ',' line)[4]! = true
        · rw [if_pos hc6]
          by_cases hc7 : i = 1
          · rw [if_pos hc7]; exact ⟨i, rfl⟩
          · rw [if_neg hc7, if_neg (show ¬ (pySplit ',' prev).length < 2 by omega)]
            by_cases hc9 : (pySplit ',' prev)[1]! ≠ route
            · rw [if_pos hc9]; exact ⟨i, rfl⟩
            · rw [if_neg hc9]; exact hrec
        · rw [if_neg hc6]; exact hrec

theorem blockIndex_total (schedule : List Str) (route sdir sst : Str)
    (hwf : ∀ l ∈ schedule, wfLine l) (hlen : 2 ≤ schedule.length) :
    ∃ i, blockIndex schedule route sdir sst = .ok i := by
  match schedule with
  | [] => simp at hlen
  | [_] => simp at hlen
  | a :: b :: rest =>
    have ha : wfLine a := hwf a (List.mem_cons_self _ _)
    refine blockLoop_total route sdir sst (b :: rest) a 1 ?_ ?_
    · intro l hl
      exact hwf l (List.mem_cons_of_mem _ hl)
    · have := ha.2
      omega

/-! ## C2 : unmatchable observations are dropped (amended) -/

/-- C2, amended: for a well-formed timetable, when the block scan settles
on index `i` (the matched block start, or the last row when no block
matched) and *no row after index `i`* - scanning to the end of the whole
table, not merely to the end of the block - carries the observation's
stop id, the lookup returns `None` without raising, and the rewritten log
is exactly the log without that row. -/
theorem matcher_drops_unmatched (schedule : List Str) (header row : Str)
    (rest : List Str) (i : Nat)
    (hwf : ∀ l ∈ schedule, wfLine l)
    (hrow9 : (pySplit ',' (pyStrip row)).length = 9)
    (hb : blockIndex schedule ((pySplit ',' (pyStrip row))[4]!)
            (scheduleDirection ((pySplit ',' (pyStrip row))[5]!))
            ((pySplit ',' (pyStrip row))[7]!) = .ok i)
    (hnostop : ∀ (j : Nat) (line : Str), i + 1 ≤ j → schedule[j]? = some line →
        (pySplit ',' (pyStrip line))[6]! ≠ (pySplit ',' (pyStrip row))[3]!) :
    find_scheduled_arrival_time schedule ((pySplit ',' (pyStrip row))[3]!)
        ((pySplit ',' (pyStrip row))[4]!) ((pySplit ',' (pyStrip row))[5]!)
        ((pySplit ',' (pyStrip row))[7]!) = .ok none ∧
    log_scheduled_arrival_times schedule (header :: row :: rest) =
      log_scheduled_arrival_times schedule (header :: rest) := by
  have hfind : find_scheduled_arrival_time schedule ((pySplit ',' (pyStrip row))[3]!)
      ((pySplit ',' (pyStrip row))[4]!) ((pySplit ',' (pyStrip row))[5]!)
      ((pySplit ',' (pyStrip row))[7]!) = .ok none := by
    simp only [find_scheduled_arrival_time, hb]
    refine stopLoop_none _ _ ?_ ?_
    · intro line hline
      obtain ⟨hstrip, hlen⟩ := hwf line (List.mem_of_mem_drop hline)
      rw [hstrip]
      exact hlen
    · intro line hline
      obtain ⟨j, hget⟩ := List.mem_iff_getElem?.mp hline
      rw [List.getElem?_drop] at hget
      exact hnostop (i + 1 + j) line (by omega) hget
  refine ⟨hfind, ?_⟩
  have hgo : logGo schedule (row :: rest) = logGo schedule rest := by
    simp only [logGo]
    rw [if_neg (show ¬ (pySplit ',' (pyStrip row)).length = 10 from by rw [hrow9]; omega),
        if_neg (show ¬ (pySplit ',' (pyStrip row)).length < 8 from by rw [hrow9]; omega),
        hfind]
  simp only [log_scheduled_arrival_times, hgo]

/-- Timetable lines and history rows used by the matcher theorems. -/
def scheduleHeaderLine : Str :=
  lit "trip_id,route_id,service_id,route_direction,arrival_time,departure_time,stop_id,stop_name,stop_latitude,stop_longitude"

/-- First (and only) row of route 61A's 06:35 block: its stop is 9999. -/
def schedRow61AOnly : Str := lit "t1,61A,s1,0,06:35:00,06:35:00,9999,StopX,40.4,-79.9"

/-- A row of a different route's block that carries stop 1177. -/
def schedRow71B : Str := lit "t2,71B,s1,0,07:00:00,07:00:00,1177,StopY,40.4,-79.9"

/-- A 9-field observation at stop 1177 on route 61A, trip start 06:35. -/
def obsRow9 : Str :=
  lit "123,2023-12-11T06:40,StopY,1177,61A,OUTBOUND,2023-12-11,06:35,06:45"

theorem matcher_drops_unmatched_witness :
    find_scheduled_arrival_time [scheduleHeaderLine, schedRow71B]
        (lit "1177") (lit "61A") (lit "OUTBOUND") (lit "06:35") = .ok none ∧
    log_scheduled_arrival_times [scheduleHeaderLine, schedRow71B]
        [historyHeader, obsRow9] =
      log_scheduled_arrival_times [scheduleHeaderLine, schedRow71B] [historyHeader] := by
  have hnostop : ∀ (j : Nat) (line : Str), 1 + 1 ≤ j →
      ([scheduleHeaderLine, schedRow71B] : List Str)[j]? = some line →
      (pySplit ',' (pyStrip line))[6]! ≠ (pySplit ',' (pyStrip obsRow9))[3]! := by
    intro j line hj hget
    rw [List.getElem?_eq_none (by simp only [List.length_cons, List.length_nil]; omega)] at hget
    cases hget
  exact matcher_drops_unmatched [scheduleHeaderLine, schedRow71B] historyHeader obsRow9
    [] 1 (by decide) (by decide) (by rfl) hnostop

/-- C2, counterexample to the claim as stated: route 61A's matched block
contains only stop 9999, yet the observation at stop 1177 is *not*
dropped - the forward scan runs past the block boundary into route 71B's
block and enriches the row with that block's 07:00:00 arrival. -/
theorem matcher_cross_block_counterexample :
    find_scheduled_arrival_time [scheduleHeaderLine, schedRow61AOnly, schedRow71B]
        (lit "1177") (lit "61A") (lit "OUTBOUND") (lit "06:35") =
      .ok (some (lit "07:00")) ∧
    log_scheduled_arrival_times [scheduleHeaderLine, schedRow61AOnly, schedRow71B]
        [historyHeader, obsRow9] =
      .ok [historyHeader, obsRow9 ++ lit ",07:00"] ∧
    (.ok [historyHeader, obsRow9 ++ lit ",07:00"] :
        Except String (List Str)) ≠ .ok [historyHeader] := by
  refine ⟨rfl, rfl, ?_⟩
  intro h
  have := Except.ok.inj h
  simp at this

/-! ## C9 : the stop scan starts strictly after the block's first row -/

/-- C9: whatever the lookup returns, an enriched time always originates
from a row with index strictly greater than the break index `i` of the
first loop - the row at `i` itself (the block's first matching row) is
never the source, because the second loop starts at `i + 1`. -/
theorem matcher_scans_strictly_after (schedule : List Str) (sid rid dir sst : Str)
    (i : Nat) (t : Str)
    (hb : blockIndex schedule rid (scheduleDirection dir) sst = .ok i)
    (hf : find_scheduled_arrival_time schedule sid rid dir sst = .ok (some t)) :
    ∃ (j : Nat) (line : Str), i + 1 ≤ j ∧ schedule[j]? = some line ∧
      (pySplit ',' (pyStrip line))[6]! = sid ∧
      convertArrivalTime ((pySplit ',' (pyStrip line))[4]!) = .ok t := by
  simp only [find_scheduled_arrival_time, hb] at hf
  obtain ⟨j, line, hget, h6, hconv⟩ := stopLoop_ok_some _ sid t hf
  refine ⟨i + 1 + j, line, by omega, ?_, h6, hconv⟩
  rw [← List.getElem?_drop]
  exact hget

/-- The 61A block whose second row carries stop 1177 at 06:42:00. -/
def schedRow61A1 : Str := lit "t1,61A,s1,0,06:35:00,06:35:00,36,StopA,40.4,-79.9"

def schedRow61A2 : Str := lit "t1,61A,s1,0,06:42:00,06:42:00,1177,StopB,40.4,-79.9"

theorem matcher_scans_strictly_after_witness :
    ∃ (j : Nat) (line : Str), 1 + 1 ≤ j ∧
      ([scheduleHeaderLine, schedRow61A1, schedRow61A2] : List Str)[j]? = some line ∧
      (pySplit ',' (pyStrip line))[6]! = lit "1177" ∧
      convertArrivalTime ((pySplit ',' (pyStrip line))[4]!) = .ok (lit "06:42") :=
  matcher_scans_strictly_after [scheduleHeaderLine, schedRow61A1, schedRow61A2]
    (lit "1177") (lit "61A") (lit "OUTBOUND") (lit "06:35") 1 (lit "06:42")
    (by rfl) (by rfl)

/-! ## C6 : enrichment with the matched arrival time (amended) -/

/-- C6, amended: the 61A/OUTBOUND/06:35 observation at stop 1177 is
enriched with 06:42 from the matched block row; in general a matched
arrival time with a valid hour is truncated to minute precision, and one
with hour 24-47 has 24 subtracted from the hour.  (Hours 48 and above
make the retry parse fail again, so the subtraction clause holds only up
to 47 - see the counterexample.) -/
theorem matcher_enrichment :
    log_scheduled_arrival_times [scheduleHeaderLine, schedRow61A1, schedRow61A2]
        [historyHeader, obsRow9] =
      .ok [historyHeader, obsRow9 ++ lit ",06:42"] ∧
    (∀ h m s : Nat, h ≤ 23 → m ≤ 59 → s ≤ 59 →
      convertArrivalTime (timeHMS h m s) = .ok (pad2 h ++ ':' :: pad2 m)) ∧
    (∀ h m s : Nat, 24 ≤ h → h ≤ 47 → m ≤ 59 → s ≤ 59 →
      convertArrivalTime (timeHMS h m s) = .ok (pad2 (h - 24) ++ ':' :: pad2 m)) := by
  refine ⟨by rfl, ?_, ?_⟩
  · exact fun h m s hh hm hs => convertArrivalTime_valid hh hm hs
  · exact fun h m s h24 h47 hm hs => convertArrivalTime_sub24 h24 h47 hm hs

theorem matcher_enrichment_witness :
    convertArrivalTime (timeHMS 25 10 0) = .ok (pad2 (25 - 24) ++ ':' :: pad2 10) ∧
    convertArrivalTime (timeHMS 25 10 0) = .ok (lit "01:10") := by
  have h := matcher_enrichment.2.2 25 10 0 (by omega) (by omega) (by omega) (by omega)
  exact ⟨h, h.trans (by rfl)⟩

/-- The matched row for stop 1177 carries the out-of-range arrival time
48:10:00. -/
def schedRow61A48 : Str := lit "t1,61A,s1,0,48:10:00,48:10:00,1177,StopB,40.4,-79.9"

/-- C6, counterexample to the claim as stated: the subtraction rule does
not hold for *every* hour component >= 24 - for 48:10:00 the retry parse
of "24:10:00" fails too, the `ValueError` escapes and the whole matching
pass aborts instead of producing a normalized time. -/
theorem matcher_enrichment_counterexample :
    convertArrivalTime (lit "48:10:00") = .error "ValueError" ∧
    log_scheduled_arrival_times [scheduleHeaderLine, schedRow61A1, schedRow61A48]
        [historyHeader, obsRow9] = .error "ValueError" := by
  exact ⟨rfl, rfl⟩

/-! ## C7 : pass-through of already-matched rows, header, order -/

/-- What the matching pass emits for a single non-header line: the
stripped line itself when it already has 10 fields, the enriched line on
a lookup hit, `none` (dropped) on a miss, and the escaping exception
otherwise. -/
def rowOut (schedule : List Str) (line : Str) : Except String (Option Str) :=
  let l := pyStrip line
  let lst := pySplit ',' l
  if lst.length = 10 then .ok (some l)
  else if lst.length < 8 then .error "IndexError"
  else
    match find_scheduled_arrival_time schedule lst[3]! lst[4]! lst[5]! lst[7]! with
    | .error e => .error e
    | .ok none => .ok none
    | .ok (some t) => .ok (some (l ++ ',' :: t))

/-- The loop of `log_scheduled_arrival_times` processes rows
independently, in order: a successful pass is `rowOut` applied to each
row, with the dropped rows filtered out. -/
theorem logGo_forall2 (schedule : List Str) :
    ∀ (rows out : List Str), logGo schedule rows = .ok out →
      ∃ outs : List (Option Str),
        List.Forall₂ (fun line o => rowOut schedule line = .ok o) rows outs ∧
        out = outs.filterMap id := by
  intro rows
  induction rows with
  | nil =>
    intro out h
    simp only [logGo] at h
    exact ⟨[], List.Forall₂.nil, by simpa using (Except.ok.inj h).symm⟩
  | cons line rest ih =>
    intro out h
    simp only [logGo] at h
    by_cases h10 : (pySplit ',' (pyStrip line)).length = 10
    · rw [if_pos h10] at h
      cases hgo : logGo schedule rest with
      | error e => rw [hgo] at h; exact absurd h (by simp)
      | ok out2 =>
        rw [hgo] at h
        obtain ⟨outs, hf2, hout2⟩ := ih out2 hgo
        refine ⟨some (pyStrip line) :: outs, ?_, ?_⟩
        · refine List.Forall₂.cons ?_ hf2
          simp only [rowOut]
          rw [if_pos h10]
        · have hout : out = pyStrip line :: out2 := (Except.ok.inj h).symm
          rw [hout, hout2]
          rfl
    · rw [if_neg h10] at h
      by_cases h8 : (pySplit ',' (pyStrip line)).length < 8
      · rw [if_pos h8] at h
        exact absurd h (by simp)
      · rw [if_neg h8] at h
        cases hfind : find_scheduled_arrival_time schedule
            (pySplit ',' (pyStrip line))[3]! (pySplit ',' (pyStrip line))[4]!
            (pySplit ',' (pyStrip line))[5]! (pySplit ',' (pyStrip line))[7]! with
        | error e =>
          rw [hfind] at h
          exact absurd h (by simp)
        | ok o =>
          rw [hfind] at h
          cases o with
          | none =>
            obtain ⟨outs, hf2, hout2⟩ := ih out h
            refine ⟨none :: outs, ?_, ?_⟩
            · refine List.Forall₂.cons ?_ hf2
              simp only [rowOut]
              rw [if_neg h10, if_neg h8, hfind]
            · rw [hout2]
              rfl
          | some t =>
            cases hgo : logGo schedule rest with
            | error e => rw [hgo] at h; exact absurd h (by simp)
            | ok out2 =>
              rw [hgo] at h
              obtain ⟨outs, hf2, hout2⟩ := ih out2 hgo
              refine ⟨some (pyStrip line ++ ',' :: t) :: outs, ?_, ?_⟩
              · refine List.Forall₂.cons ?_ hf2
                simp only [rowOut]
                rw [if_neg h10, if_neg h8, hfind]
              · have hout : out = (pyStrip line ++ ',' :: t) :: out2 :=
                  (Except.ok.inj h).symm
                rw [hout, hout2]
                rfl

/-- C7: a successful matching pass preserves the header verbatim as the
first output line, emits retained rows in input order (each input row
maps, in order, to `some` emitted line or `none`), and passes every
10-field row through unchanged. -/
theorem matcher_passthrough (schedule : List Str) (header : Str) (rest out : List Str)
    (htrim : ∀ l ∈ rest, pyStrip l = l)
    (hok : log_scheduled_arrival_times schedule (header :: rest) = .ok out) :
    ∃ outs : List (Option Str),
      List.Forall₂ (fun line o => rowOut schedule line = .ok o) rest outs ∧
      out = header :: outs.filterMap id ∧
      ∀ line ∈ rest, (pySplit ',' line).length = 10 →
        rowOut schedule line = .ok (some line) := by
  simp only [log_scheduled_arrival_times] at hok
  cases hgo : logGo schedule rest with
  | error e => rw [hgo] at hok; exact absurd hok (by simp)
  | ok out2 =>
    rw [hgo] at hok
    obtain ⟨outs, hf2, hout2⟩ := logGo_forall2 schedule rest out2 hgo
    have hout : out = header :: out2 := (Except.ok.inj hok).symm
    refine ⟨outs, hf2, by rw [hout, hout2], ?_⟩
    intro line hline h10
    have ht := htrim line hline
    simp only [rowOut, ht]
    rw [if_pos h10]

/-- An already-matched 10-field history row. -/
def obsRow10 : Str :=
  lit "124,2023-12-11T06:39,StopA,36,61A,OUTBOUND,2023-12-11,06:35,06:39,06:35"

theorem matcher_passthrough_witness :
    ∃ outs : List (Option Str),
      List.Forall₂
        (fun line o => rowOut [scheduleHeaderLine, schedRow61A1, schedRow61A2] line = .ok o)
        [obsRow10, obsRow9] outs ∧
      [historyHeader, obsRow10, obsRow9 ++ lit ",06:42"] =
        historyHeader :: outs.filterMap id ∧
      ∀ line ∈ [obsRow10, obsRow9], (pySplit ',' line).length = 10 →
        rowOut [scheduleHeaderLine, schedRow61A1, schedRow61A2] line = .ok (some line) :=
  matcher_passthrough [scheduleHeaderLine, schedRow61A1, schedRow61A2] historyHeader
    [obsRow10, obsRow9] [historyHeader, obsRow10, obsRow9 ++ lit ",06:42"]
    (by decide) (by rfl)

/-! ## C8 : reference-table lookups are first-seen-wins -/

theorem lookupAL_append {α : Type} (d : List (Str × α)) (k0 : Str) (v : α) (k : Str) :
    lookupAL (d ++ [(k0, v)]) k =
      match lookupAL d k with
      | some w => some w
      | none => if k0 = k then some v else none := by
  induction d with
  | nil => rfl
  | cons p d ih =>
    obtain ⟨k1, v1⟩ := p
    simp only [List.cons_append, List.append_eq, lookupAL]
    by_cases h1 : k1 = k
    · rw [if_pos h1, if_pos h1]
    · rw [if_neg h1, if_neg h1, ih]

theorem lookupAL_foldl {α : Type} (key : α → Str) :
    ∀ (rows : List α) (d : List (Str × α)) (k : Str),
      lookupAL (rows.foldl (fun d r => insertIfAbsent d (key r) r) d) k =
        match lookupAL d k with
        | some w => some w
        | none => rows.find? (fun r => key r == k) := by
  intro rows
  induction rows with
  | nil =>
    intro d k
    simp only [List.foldl_nil, List.find?_nil]
    cases lookupAL d k <;> rfl
  | cons r rows2 ih =>
    intro d k
    simp only [List.foldl_cons, List.find?_cons]
    rw [ih (insertIfAbsent d (key r) r) k]
    unfold insertIfAbsent
    by_cases hpres : (lookupAL d (key r)).isSome
    · rw [if_pos hpres]
      cases hdk : lookupAL d k with
      | some w => rfl
      | none =>
        have hne : (key r == k) = false := by
          refine beq_eq_false_iff_ne.mpr (fun e => ?_)
          rw [e, hdk] at hpres
          simp at hpres
        rw [hne]
    · rw [if_neg hpres, lookupAL_append]
      cases hdk : lookupAL d k with
      | some w => rfl
      | none =>
        by_cases heq : key r = k
        · rw [if_pos heq]
          have : (key r == k) = true := beq_iff_eq.mpr heq
          rw [this]
        · rw [if_neg heq]
          have : (key r == k) = false := beq_eq_false_iff_ne.mpr heq
          rw [this]

/-- `dict[id]`, built by the insert-if-absent loop, is exactly the first
row of the table carrying that id. -/
theorem lookupAL_buildDict {α : Type} (key : α → Str) (rows : List α) (k : Str) :
    lookupAL (buildDict key rows) k = rows.find? (fun r => key r == k) := by
  unfold buildDict
  rw [lookupAL_foldl key rows [] k]
  rfl

/-- The merge row described with first-occurrence lookups (`List.find?`)
over the raw reference tables. -/
def mergeRowFirst (trips : List TripRow) (stops : List StopRow)
    (st : StopTimeRow) : List Str :=
  [st.trip_id,
   match trips.find? (fun t => t.trip_id == st.trip_id) with
   | some t => t.route_id
   | none => zeroSentinel,
   match trips.find? (fun t => t.trip_id == st.trip_id) with
   | some t => t.service_id
   | none => zeroSentinel,
   match trips.find? (fun t => t.trip_id == st.trip_id) with
   | some t => t.direction_id
   | none => zeroSentinel,
   st.arrival_time, st.departure_time, st.stop_id,
   match stops.find? (fun s => s.stop_id == st.stop_id) with
   | some s => s.stop_name
   | none => zeroSentinel,
   match stops.find? (fun s => s.stop_id == st.stop_id) with
   | some s => s.stop_lat
   | none => zeroSentinel,
   match stops.find? (fun s => s.stop_id == st.stop_id) with
   | some s => s.stop_lon
   | none => zeroSentinel]

/-- C8: every output row of the timetable builder draws its trip fields
(route_id, service_id, direction) and stop fields (name, latitude,
longitude) from the *first* occurrence of the trip_id in the trips table
and of the stop_id in the stops table. -/
theorem builder_first_seen_wins (trips : List TripRow) (stops : List StopRow)
    (stopTimes : List StopTimeRow) (k : Nat) (hk : k < stopTimes.length) :
    (mergeStopTimesAndTrips stopTimes trips stops)[k + 1]? =
      some (mergeRowFirst trips stops (stopTimes.get ⟨k, hk⟩)) := by
  unfold mergeStopTimesAndTrips
  rw [List.getElem?_cons_succ, List.getElem?_map,
      List.getElem?_eq_getElem hk]
  simp only [Option.map_some']
  congr 1
  unfold mergeRow mergeRowFirst readTripsDict readStopsDict
  rw [lookupAL_buildDict, lookupAL_buildDict]
  rfl

def tripT1a : TripRow := ⟨lit "T1", lit "61A", lit "SVC", lit "0"⟩

/-- A second trips row with the *same* trip_id but different fields. -/
def tripT1b : TripRow := ⟨lit "T1", lit "71B", lit "SVC2", lit "1"⟩

def stop36a : StopRow := ⟨lit "36", lit "Fifth", lit "40.4", lit "-79.9"⟩

/-- A second stops row with the *same* stop_id but different fields. -/
def stop36b : StopRow := ⟨lit "36", lit "Other", lit "0", lit "0"⟩

def stopTimeT1 : StopTimeRow := ⟨lit "T1", lit "06:35:00", lit "06:36:00", lit "36"⟩

theorem builder_first_seen_wins_witness :
    (mergeStopTimesAndTrips [stopTimeT1] [tripT1a, tripT1b] [stop36a, stop36b])[0 + 1]? =
      some (mergeRowFirst [tripT1a, tripT1b] [stop36a, stop36b]
        (([stopTimeT1] : List StopTimeRow).get ⟨0, by decide⟩)) ∧
    mergeRowFirst [tripT1a, tripT1b] [stop36a, stop36b]
        (([stopTimeT1] : List StopTimeRow).get ⟨0, by decide⟩) =
      [lit "T1", lit "61A", lit "SVC", lit "0", lit "06:35:00", lit "06:36:00",
       lit "36", lit "Fifth", lit "40.4", lit "-79.9"] :=
  ⟨builder_first_seen_wins [tripT1a, tripT1b] [stop36a, stop36b] [stopTimeT1] 0 (by decide),
   by decide⟩

end EasyPRT
